import Mathlib

/-!
Verification of `cloud/amazon/ecs_cluster_facts.py` (class `EcsClusterManager`
and the defaults set up in `main`).  The provider SDK (`boto3` ECS client) is
modelled as explicit inputs: the listing call as a stream of responses, the
describe call as a function from an identifier batch to the records of its
response, and Python's `re.match` as a prefix-anchored matcher over a regex
syntax tree built from the pattern string.
-/

namespace EcsClusterFacts

/-- Data model: a cluster record as documented in the module's RETURN block.
Field access `cluster[filter_param]` is modelled by `getField` below for the
string-valued fields. -/
structure ClusterRecord where
  clusterName : String
  clusterArn : String
  status : String
  activeServicesCount : Nat
  pendingTasksCount : Nat
  registeredContainerInstancesCount : Nat
  runningTasksCount : Nat
deriving DecidableEq, Repr

/-- Python dict access `cluster[filter_param]` for the string-valued fields of
a cluster record; other keys are outside the modelled domain (the spec assumes
the field is present on every record). -/
def getField (cluster : ClusterRecord) (field : String) : String :=
  if field = "clusterName" then cluster.clusterName
  else if field = "clusterArn" then cluster.clusterArn
  else if field = "status" then cluster.status
  else ""

/-- One response of the provider's `list_clusters` call: a page of identifiers
and an optional continuation token (`nextToken` present or absent). -/
structure ListResponse where
  clusterArns : List String
  nextToken : Option String
deriving DecidableEq, Repr

/-- Errors raised by the embedded methods: Python's `AttributeError` for a
lookup of an attribute the object does not have, and the `Exception` raised by
`describe_clusters` carrying the identifier list interpolated into its
message. -/
inductive PyError where
  | attributeError (name : String)
  | describeError (cluster_arns : List String)
deriving DecidableEq, Repr

/-- Embeds `EcsClusterManager.list_clusters`.  The provider's successive
responses are `responses 0`, `responses 1`, ...; the method makes its first
call `self.ecs.list_clusters()` obtaining `responses 0`.  If that response
carries a `nextToken`, the loop body executes
`response = self.ecs_list_clusters()` — an attribute the class does not
define (the receiver `self.ecs` was misspelled away), so Python raises
`AttributeError` before any further provider call; the continuation token is
never forwarded. -/
def list_clusters (responses : Nat → ListResponse) : Except PyError (List String) :=
  let cluster_arns : List String := []
  let response := responses 0
  let cluster_arns := cluster_arns ++ response.clusterArns
  match response.nextToken with
  | some _ => Except.error (PyError.attributeError "ecs_list_clusters")
  | none => Except.ok cluster_arns

/-- Batch limit hard-coded in `describe_clusters` (`cluster_max_size = 50`). -/
def cluster_max_size : Nat := 50

/-- Loop of `EcsClusterManager.describe_clusters`, with fuel for termination
(the fuel is set to the input length by `describe_clusters`, which always
suffices since every iteration drops at least one identifier).  `descr` models
`self.ecs.describe_clusters(clusters=batch)['clusters']`.  Besides the
accumulated records the embedding returns the log of batches requested, one
entry per provider call.  When a response carries zero records the method
raises `Exception("Unknown problem describing cluster %s." % cluster_arns)`
where `cluster_arns` is the whole remaining list, not just the batch. -/
def describeLoop (descr : List String → List ClusterRecord) :
    Nat → List String → Except PyError (List ClusterRecord × List (List String))
  | _, [] => Except.ok ([], [])
  | 0, _ :: _ => Except.ok ([], [])
  | fuel + 1, arn :: rest =>
    let cluster_arns := arn :: rest
    let batch := cluster_arns.take cluster_max_size
    let response := descr batch
    if response.length > 0 then
      match describeLoop descr fuel (cluster_arns.drop cluster_max_size) with
      | Except.ok (details, calls) => Except.ok (response ++ details, batch :: calls)
      | Except.error e => Except.error e
    else
      Except.error (PyError.describeError cluster_arns)

/-- Embeds `EcsClusterManager.describe_clusters`: returns the accumulated
`cluster_details` together with the log of batches requested from the
provider. -/
def describe_clusters (descr : List String → List ClusterRecord)
    (cluster_arns : List String) :
    Except PyError (List ClusterRecord × List (List String)) :=
  describeLoop descr cluster_arns.length cluster_arns

/-- The batches `describe_clusters` slices from its input: consecutive chunks
`arns[0:50]`, `arns[50:100]`, ... (same fuel discipline as `describeLoop`). -/
def batchesLoop : Nat → List String → List (List String)
  | _, [] => []
  | 0, _ :: _ => []
  | fuel + 1, arn :: rest =>
    (arn :: rest).take cluster_max_size ::
      batchesLoop fuel ((arn :: rest).drop cluster_max_size)

/-- Consecutive batches of at most `cluster_max_size` identifiers. -/
def batchesOf (cluster_arns : List String) : List (List String) :=
  batchesLoop cluster_arns.length cluster_arns

/-- Regular-expression syntax trees, modelling the fragment of Python regex
patterns this module needs: literal characters, `.` (any single character),
postfix `*`, alternation and concatenation (plus the empty and failing
regexes needed by derivatives). -/
inductive Regex where
  | fail : Regex
  | eps : Regex
  | lit (c : Char) : Regex
  | any : Regex
  | alt (r1 r2 : Regex) : Regex
  | cat (r1 r2 : Regex) : Regex
  | star (r1 : Regex) : Regex
deriving DecidableEq, Repr

/-- Declarative matching semantics: `RMatches r l` holds when the regex `r`
matches exactly the character list `l`. -/
inductive RMatches : Regex → List Char → Prop where
  | eps : RMatches Regex.eps []
  | lit (c : Char) : RMatches (Regex.lit c) [c]
  | any (c : Char) : RMatches Regex.any [c]
  | altL {r1 r2 : Regex} {l : List Char} :
      RMatches r1 l → RMatches (Regex.alt r1 r2) l
  | altR {r1 r2 : Regex} {l : List Char} :
      RMatches r2 l → RMatches (Regex.alt r1 r2) l
  | cat {r1 r2 : Regex} {l1 l2 : List Char} :
      RMatches r1 l1 → RMatches r2 l2 → RMatches (Regex.cat r1 r2) (l1 ++ l2)
  | starNil (r1 : Regex) : RMatches (Regex.star r1) []
  | starCons {r1 : Regex} {l1 l2 : List Char} :
      RMatches r1 l1 → RMatches (Regex.star r1) l2 →
      RMatches (Regex.star r1) (l1 ++ l2)

/-- Whether a regex matches the empty string. -/
def nullable : Regex → Bool
  | Regex.fail => false
  | Regex.eps => true
  | Regex.lit _ => false
  | Regex.any => false
  | Regex.alt r1 r2 => nullable r1 || nullable r2
  | Regex.cat r1 r2 => nullable r1 && nullable r2
  | Regex.star _ => true

/-- Brzozowski derivative of a regex with respect to a character. -/
def deriv : Regex → Char → Regex
  | Regex.fail, _ => Regex.fail
  | Regex.eps, _ => Regex.fail
  | Regex.lit a, c => if a = c then Regex.eps else Regex.fail
  | Regex.any, _ => Regex.eps
  | Regex.alt r1 r2, c => Regex.alt (deriv r1 c) (deriv r2 c)
  | Regex.cat r1 r2, c =>
    if nullable r1 then Regex.alt (Regex.cat (deriv r1 c) r2) (deriv r2 c)
    else Regex.cat (deriv r1 c) r2
  | Regex.star r1, c => Regex.cat (deriv r1 c) (Regex.star r1)

/-- Prefix-anchored matcher: true when some prefix of the character list
matches the regex.  This is the truthiness of Python's `re.match`, which
anchors at the start of the string but not at its end. -/
def reMatchList : Regex → List Char → Bool
  | r, [] => nullable r
  | r, c :: rest => nullable r || reMatchList (deriv r c) rest

/-- Modelled from Python's `re` pattern syntax for the fragment of literal
characters, `.` and postfix `*`: a left fold over the pattern collecting
atoms (in reverse), where `*` wraps the previous atom in a star. -/
def parseAtoms : List Regex → List Char → List Regex
  | acc, [] => acc
  | acc, c :: rest =>
    if c = '.' then parseAtoms (Regex.any :: acc) rest
    else if c = '*' then
      match acc with
      | a :: acc2 => parseAtoms (Regex.star a :: acc2) rest
      | [] => parseAtoms (Regex.lit c :: acc) rest
    else parseAtoms (Regex.lit c :: acc) rest

/-- Parse a pattern string of the modelled fragment into a regex tree. -/
def parseRegex (pattern : String) : Regex :=
  ((parseAtoms [] pattern.toList).reverse).foldl Regex.cat Regex.eps

/-- Models `re.match(pattern, s)` being truthy: the parsed pattern matches
some prefix of `s`. -/
def re_match (pattern s : String) : Bool :=
  reMatchList (parseRegex pattern) s.toList

/-- Models the Python expression `needle in hay` on strings: substring
containment. -/
def pyIn (needle hay : String) : Bool :=
  decide (needle.toList <:+: hay.toList)

/-- Per-record body of the loop in `EcsClusterManager.filter_clusters`: the
`if filter_mode == ...` chain deciding whether the record is appended; an
unrecognized mode falls through every branch without appending. -/
def keep_cluster (filter_param filter_value filter_mode : String)
    (cluster : ClusterRecord) : Bool :=
  if filter_mode = "substring" then pyIn filter_value (getField cluster filter_param)
  else if filter_mode = "exact" then decide (getField cluster filter_param = filter_value)
  else if filter_mode = "regex" then re_match filter_value (getField cluster filter_param)
  else false

/-- Embeds `EcsClusterManager.filter_clusters`: iterates over `clusters`,
appending each record that its mode's test accepts. -/
def filter_clusters (clusters : List ClusterRecord)
    (filter_param filter_value filter_mode : String) : List ClusterRecord :=
  clusters.filter (keep_cluster filter_param filter_value filter_mode)

/-- Default of the `name` module parameter in `main`'s `argument_spec`. -/
def default_name : String := ""

/-- Default of the `search_mode` module parameter in `main`'s
`argument_spec`. -/
def default_search_mode : String := "substring"

/-- Sample record with name `prod-a`, as in the spec's testable properties. -/
def recProdA : ClusterRecord := ⟨"prod-a", "arn:prod-a", "ACTIVE", 1, 0, 2, 3⟩

/-- Sample record with name `prod-b`. -/
def recProdB : ClusterRecord := ⟨"prod-b", "arn:prod-b", "ACTIVE", 0, 1, 0, 0⟩

/-- Sample record with name `stage-a`. -/
def recStageA : ClusterRecord := ⟨"stage-a", "arn:stage-a", "INACTIVE", 0, 0, 0, 0⟩

/-- Record list with names `prod-a`, `prod-b`, `stage-a`. -/
def sampleClusters : List ClusterRecord := [recProdA, recProdB, recStageA]

/-- A record whose name and identifier are the given string. -/
def mkRecord (clusterName : String) : ClusterRecord :=
  ⟨clusterName, clusterName, "ACTIVE", 0, 0, 0, 0⟩

/-- 120 distinct identifiers, for the spec's batching property. -/
def arns120 : List String := (List.range 120).map Nat.repr

/-- 51 distinct identifiers: one more than a full batch. -/
def arns51 : List String := (List.range 51).map Nat.repr

/-- Provider stub returning one record per requested identifier. -/
def descrPerArn : List String → List ClusterRecord := fun batch => batch.map mkRecord

/-- Provider stub whose every describe response carries zero records. -/
def descrNone : List String → List ClusterRecord := fun _ => []

/-- Provider stub with two pages: the first response carries a continuation
token, the second does not. -/
def twoPageProvider : Nat → ListResponse := fun i =>
  if i = 0 then ⟨["c1"], some "tok"⟩ else ⟨["c2"], none⟩

/-! Correctness of the Brzozowski-derivative matcher against the declarative
matching relation, leading to the prefix-match characterisation of
`re_match`. -/

theorem rmatches_fail_iff {l : List Char} : RMatches Regex.fail l ↔ False :=
  ⟨fun h => (nomatch h), False.elim⟩

theorem rmatches_eps_iff {l : List Char} : RMatches Regex.eps l ↔ l = [] :=
  ⟨fun h => by cases h; rfl, fun h => h ▸ RMatches.eps⟩

theorem rmatches_lit_iff {a : Char} {l : List Char} :
    RMatches (Regex.lit a) l ↔ l = [a] :=
  ⟨fun h => by cases h; rfl, fun h => h ▸ RMatches.lit a⟩

theorem rmatches_any_iff {l : List Char} : RMatches Regex.any l ↔ ∃ c, l = [c] := by
  constructor
  · intro h
    cases h with
    | any c => exact ⟨c, rfl⟩
  · rintro ⟨c, rfl⟩
    exact RMatches.any c

theorem rmatches_alt_iff {r1 r2 : Regex} {l : List Char} :
    RMatches (Regex.alt r1 r2) l ↔ RMatches r1 l ∨ RMatches r2 l := by
  constructor
  · intro h
    cases h with
    | altL h1 => exact Or.inl h1
    | altR h1 => exact Or.inr h1
  · intro h
    cases h with
    | inl h1 => exact RMatches.altL h1
    | inr h1 => exact RMatches.altR h1

theorem rmatches_cat_iff {r1 r2 : Regex} {l : List Char} :
    RMatches (Regex.cat r1 r2) l ↔
      ∃ l1 l2, l = l1 ++ l2 ∧ RMatches r1 l1 ∧ RMatches r2 l2 := by
  constructor
  · intro h
    cases h with
    | cat h1 h2 => exact ⟨_, _, rfl, h1, h2⟩
  · rintro ⟨l1, l2, rfl, h1, h2⟩
    exact RMatches.cat h1 h2

theorem rmatches_star_inv_aux {q : Regex} {l : List Char} (h : RMatches q l) :
    ∀ r1 : Regex, q = Regex.star r1 →
      l = [] ∨ ∃ l1 l2, l = l1 ++ l2 ∧ l1 ≠ [] ∧ RMatches r1 l1 ∧
        RMatches (Regex.star r1) l2 := by
  induction h with
  | eps => exact fun r1 hq => Regex.noConfusion hq
  | lit c => exact fun r1 hq => Regex.noConfusion hq
  | any c => exact fun r1 hq => Regex.noConfusion hq
  | altL h1 ih => exact fun r1 hq => Regex.noConfusion hq
  | altR h1 ih => exact fun r1 hq => Regex.noConfusion hq
  | cat h1 h2 ih1 ih2 => exact fun r1 hq => Regex.noConfusion hq
  | starNil r2 => exact fun r1 hq => Or.inl rfl
  | starCons h1 h2 ih1 ih2 =>
    rename_i r2 l1 l2
    intro r1 hq
    injection hq with he
    subst he
    by_cases hl : l1 = []
    · simpa [hl] using ih2 _ rfl
    · exact Or.inr ⟨l1, l2, rfl, hl, h1, h2⟩

/-- Inversion for star: a nontrivial star match splits off a nonempty first
chunk. -/
theorem rmatches_star_inv {r1 : Regex} {l : List Char}
    (h : RMatches (Regex.star r1) l) :
    l = [] ∨ ∃ l1 l2, l = l1 ++ l2 ∧ l1 ≠ [] ∧ RMatches r1 l1 ∧
      RMatches (Regex.star r1) l2 :=
  rmatches_star_inv_aux h r1 rfl

/-- A regex is nullable exactly when it matches the empty string. -/
theorem nullable_iff : ∀ r : Regex, nullable r = true ↔ RMatches r [] := by
  intro r
  induction r with
  | fail => simp [nullable, rmatches_fail_iff]
  | eps => simpa [nullable] using RMatches.eps
  | lit c => simp [nullable, rmatches_lit_iff]
  | any => simp [nullable, rmatches_any_iff]
  | alt r1 r2 ih1 ih2 => simp [nullable, rmatches_alt_iff, ih1, ih2]
  | cat r1 r2 ih1 ih2 =>
    simp only [nullable, Bool.and_eq_true, rmatches_cat_iff, ih1, ih2]
    constructor
    · rintro ⟨h1, h2⟩
      exact ⟨[], [], rfl, h1, h2⟩
    · rintro ⟨l1, l2, hsplit, h1, h2⟩
      obtain ⟨e1, e2⟩ := List.append_eq_nil.mp hsplit.symm
      subst e1
      subst e2
      exact ⟨h1, h2⟩
  | star r1 ih => simpa [nullable] using RMatches.starNil r1

/-- The derivative matches a word exactly when the original regex matches the
word with the character prepended. -/
theorem deriv_iff : ∀ (r : Regex) (c : Char) (l : List Char),
    RMatches (deriv r c) l ↔ RMatches r (c :: l) := by
  intro r
  induction r with
  | fail => intro c l; simp [deriv, rmatches_fail_iff]
  | eps => intro c l; simp [deriv, rmatches_fail_iff, rmatches_eps_iff]
  | lit a =>
    intro c l
    by_cases hac : a = c
    · subst hac
      simp [deriv, rmatches_eps_iff, rmatches_lit_iff]
    · simp [deriv, hac, rmatches_fail_iff, rmatches_lit_iff, Ne.symm hac]
  | any =>
    intro c l
    simp [deriv, rmatches_eps_iff, rmatches_any_iff]
  | alt r1 r2 ih1 ih2 =>
    intro c l
    simp [deriv, rmatches_alt_iff, ih1, ih2]
  | cat r1 r2 ih1 ih2 =>
    intro c l
    by_cases h1 : nullable r1
    · simp only [deriv, if_pos h1]
      rw [rmatches_alt_iff, rmatches_cat_iff, rmatches_cat_iff]
      constructor
      · rintro (⟨l1, l2, rfl, hd1, hr2⟩ | hd2)
        · exact ⟨c :: l1, l2, rfl, (ih1 c l1).mp hd1, hr2⟩
        · exact ⟨[], c :: l, rfl, (nullable_iff r1).mp h1, (ih2 c l).mp hd2⟩
      · rintro ⟨l1, l2, hsplit, hr1, hr2⟩
        cases l1 with
        | nil =>
          right
          rw [List.nil_append] at hsplit
          subst hsplit
          exact (ih2 c l).mpr hr2
        | cons b l1 =>
          left
          rw [List.cons_append] at hsplit
          injection hsplit with hb hl
          subst hb
          subst hl
          exact ⟨l1, l2, rfl, (ih1 c l1).mpr hr1, hr2⟩
    · simp only [deriv, if_neg h1]
      rw [rmatches_cat_iff, rmatches_cat_iff]
      constructor
      · rintro ⟨l1, l2, rfl, hd1, hr2⟩
        exact ⟨c :: l1, l2, rfl, (ih1 c l1).mp hd1, hr2⟩
      · rintro ⟨l1, l2, hsplit, hr1, hr2⟩
        cases l1 with
        | nil => exact absurd ((nullable_iff r1).mpr hr1) (by simpa using h1)
        | cons b l1 =>
          rw [List.cons_append] at hsplit
          injection hsplit with hb hl
          subst hb
          subst hl
          exact ⟨l1, l2, rfl, (ih1 c l1).mpr hr1, hr2⟩
  | star r1 ih =>
    intro c l
    simp only [deriv]
    rw [rmatches_cat_iff]
    constructor
    · rintro ⟨l1, l2, rfl, hd1, hstar⟩
      have hcons : RMatches (Regex.star r1) ((c :: l1) ++ l2) :=
        RMatches.starCons ((ih c l1).mp hd1) hstar
      simpa using hcons
    · intro h
      rcases rmatches_star_inv h with hnil | ⟨l1, l2, hsplit, hne, hr1, hstar⟩
      · exact absurd hnil (by simp)
      · cases l1 with
        | nil => exact absurd rfl hne
        | cons b l1 =>
          rw [List.cons_append] at hsplit
          injection hsplit with hb hl
          subst hb
          subst hl
          exact ⟨l1, l2, rfl, (ih c l1).mpr hr1, hstar⟩

/-- The matcher `reMatchList` decides whether some prefix of the word matches
the regex. -/
theorem reMatchList_iff : ∀ (l : List Char) (r : Regex),
    reMatchList r l = true ↔ ∃ p, p <+: l ∧ RMatches r p := by
  intro l
  induction l with
  | nil =>
    intro r
    simp only [reMatchList]
    rw [nullable_iff]
    constructor
    · intro h
      exact ⟨[], List.nil_prefix, h⟩
    · rintro ⟨p, hp, hm⟩
      rw [List.prefix_nil] at hp
      subst hp
      exact hm
  | cons c rest ih =>
    intro r
    simp only [reMatchList, Bool.or_eq_true]
    rw [nullable_iff, ih (deriv r c)]
    constructor
    · rintro (h0 | ⟨p, hp, hm⟩)
      · exact ⟨[], List.nil_prefix, h0⟩
      · exact ⟨c :: p, List.cons_prefix_cons.mpr ⟨rfl, hp⟩, (deriv_iff r c p).mp hm⟩
    · rintro ⟨p, hp, hm⟩
      cases p with
      | nil => exact Or.inl hm
      | cons b p =>
        rw [List.cons_prefix_cons] at hp
        obtain ⟨hb, hp⟩ := hp
        subst hb
        exact Or.inr ⟨p, hp, (deriv_iff r b p).mpr hm⟩

/-- Characterisation of the modelled `re.match`: true exactly when some
prefix of the subject matches the parsed pattern. -/
theorem re_match_iff (pattern s : String) :
    re_match pattern s = true ↔
      ∃ p, p <+: s.toList ∧ RMatches (parseRegex pattern) p :=
  reMatchList_iff s.toList (parseRegex pattern)

/-! Lemmas about the batching loop of `describe_clusters`. -/

theorem batchesLoop_nil (fuel : Nat) : batchesLoop fuel [] = [] := by
  cases fuel <;> rfl

theorem batchesLoop_fuel_eq : ∀ (f1 f2 : Nat) (arns : List String),
    arns.length ≤ f1 → arns.length ≤ f2 → batchesLoop f1 arns = batchesLoop f2 arns := by
  intro f1
  induction f1 with
  | zero =>
    intro f2 arns h1 h2
    have harns : arns = [] := List.length_eq_zero.mp (Nat.le_zero.mp h1)
    subst harns
    simp [batchesLoop_nil]
  | succ f ih =>
    intro f2 arns h1 h2
    cases arns with
    | nil => simp [batchesLoop_nil]
    | cons a rest =>
      cases f2 with
      | zero =>
        simp only [List.length_cons] at h2
        omega
      | succ f2p =>
        simp only [batchesLoop]
        congr 1
        apply ih
        · rw [List.length_drop]
          simp only [List.length_cons] at h1
          simp only [List.length_cons, cluster_max_size]
          omega
        · rw [List.length_drop]
          simp only [List.length_cons] at h2
          simp only [List.length_cons, cluster_max_size]
          omega

/-- Unfolding equation of `batchesOf` on a nonempty list: the head batch is
the first `cluster_max_size` identifiers, and the rest are the batches of the
remainder. -/
theorem batchesOf_cons (a : String) (rest : List String) :
    batchesOf (a :: rest) =
      (a :: rest).take cluster_max_size ::
        batchesOf ((a :: rest).drop cluster_max_size) := by
  show batchesLoop (a :: rest).length (a :: rest) = _
  simp only [List.length_cons, batchesLoop]
  congr 1
  apply batchesLoop_fuel_eq
  · rw [List.length_drop]
    simp only [List.length_cons, cluster_max_size]
    omega
  · exact Nat.le_refl _

theorem batchesLoop_eq_batchesOf (fuel : Nat) (arns : List String)
    (h : arns.length ≤ fuel) : batchesLoop fuel arns = batchesOf arns :=
  batchesLoop_fuel_eq fuel arns.length arns h (Nat.le_refl _)

/-- The batches concatenate back to the input: they partition it into
consecutive runs. -/
theorem batchesLoop_flatten : ∀ (fuel : Nat) (arns : List String),
    arns.length ≤ fuel → (batchesLoop fuel arns).flatten = arns := by
  intro fuel
  induction fuel with
  | zero =>
    intro arns h1
    have harns : arns = [] := List.length_eq_zero.mp (Nat.le_zero.mp h1)
    subst harns
    rfl
  | succ f ih =>
    intro arns h1
    cases arns with
    | nil => rfl
    | cons a rest =>
      simp only [batchesLoop, List.flatten_cons]
      rw [ih]
      · exact List.take_append_drop _ _
      · rw [List.length_drop]
        simp only [List.length_cons] at h1
        simp only [List.length_cons, cluster_max_size]
        omega

/-- Every batch is nonempty and no longer than the batch limit. -/
theorem batchesLoop_mem : ∀ (fuel : Nat) (arns : List String) (b : List String),
    b ∈ batchesLoop fuel arns → b.length ≤ cluster_max_size ∧ b ≠ [] := by
  intro fuel
  induction fuel with
  | zero =>
    intro arns b hb
    cases arns with
    | nil => cases hb
    | cons a rest => cases hb
  | succ f ih =>
    intro arns b hb
    cases arns with
    | nil => cases hb
    | cons a rest =>
      simp only [batchesLoop, List.mem_cons] at hb
      cases hb with
      | inl hb =>
        subst hb
        constructor
        · rw [List.length_take]
          exact Nat.min_le_left _ _
        · simp [cluster_max_size]
      | inr hb => exact ih _ b hb

/-- Success run of the describe loop: when every batch's response is
nonempty, the loop returns the responses concatenated in batch order,
requesting exactly the batches. -/
theorem describeLoop_ok (descr : List String → List ClusterRecord) :
    ∀ (fuel : Nat) (arns : List String), arns.length ≤ fuel →
    (∀ b ∈ batchesLoop fuel arns, descr b ≠ []) →
    describeLoop descr fuel arns =
      Except.ok (((batchesLoop fuel arns).map descr).flatten, batchesLoop fuel arns) := by
  intro fuel
  induction fuel with
  | zero =>
    intro arns h1 h2
    have harns : arns = [] := List.length_eq_zero.mp (Nat.le_zero.mp h1)
    subst harns
    rfl
  | succ f ih =>
    intro arns h1 h2
    cases arns with
    | nil => rfl
    | cons a rest =>
      have hb : descr ((a :: rest).take cluster_max_size) ≠ [] := by
        apply h2
        simp [batchesLoop]
      have hpos : 0 < (descr ((a :: rest).take cluster_max_size)).length :=
        List.length_pos.mpr hb
      have hlen : ((a :: rest).drop cluster_max_size).length ≤ f := by
        rw [List.length_drop]
        simp only [List.length_cons] at h1
        simp only [List.length_cons, cluster_max_size]
        omega
      have hrest : ∀ b ∈ batchesLoop f ((a :: rest).drop cluster_max_size),
          descr b ≠ [] := by
        intro b hbm
        apply h2
        simp only [batchesLoop, List.mem_cons]
        exact Or.inr hbm
      have hrec := ih _ hlen hrest
      simp only [describeLoop, batchesLoop, hrec, List.map_cons, List.flatten_cons]
      rw [if_pos hpos]

/-- Unfolding of the describe loop on a nonempty list. -/
theorem describeLoop_cons (descr : List String → List ClusterRecord) (f : Nat)
    (a : String) (rest : List String) :
    describeLoop descr (f + 1) (a :: rest) =
      if (descr ((a :: rest).take cluster_max_size)).length > 0 then
        match describeLoop descr f ((a :: rest).drop cluster_max_size) with
        | Except.ok (details, calls) =>
            Except.ok (descr ((a :: rest).take cluster_max_size) ++ details,
              (a :: rest).take cluster_max_size :: calls)
        | Except.error e => Except.error e
      else Except.error (PyError.describeError (a :: rest)) := rfl

/-- The loop fails exactly when some batch's response has zero records. -/
theorem describeLoop_error_iff (descr : List String → List ClusterRecord) :
    ∀ (fuel : Nat) (arns : List String), arns.length ≤ fuel →
    ((∃ e, describeLoop descr fuel arns = Except.error e) ↔
      ∃ b ∈ batchesLoop fuel arns, descr b = []) := by
  intro fuel
  induction fuel with
  | zero =>
    intro arns h1
    have harns : arns = [] := List.length_eq_zero.mp (Nat.le_zero.mp h1)
    subst harns
    simp [describeLoop, batchesLoop]
  | succ f ih =>
    intro arns h1
    cases arns with
    | nil => simp [describeLoop, batchesLoop]
    | cons a rest =>
      have hlen : ((a :: rest).drop cluster_max_size).length ≤ f := by
        rw [List.length_drop]
        simp only [List.length_cons] at h1
        simp only [List.length_cons, cluster_max_size]
        omega
      rw [describeLoop_cons]
      by_cases hb : descr ((a :: rest).take cluster_max_size) = []
      · rw [if_neg (by simp [hb])]
        constructor
        · intro _
          exact ⟨(a :: rest).take cluster_max_size, by simp [batchesLoop], hb⟩
        · intro _
          exact ⟨PyError.describeError (a :: rest), rfl⟩
      · have hpos : (descr ((a :: rest).take cluster_max_size)).length > 0 :=
          List.length_pos.mpr hb
        rw [if_pos hpos]
        cases hrec : describeLoop descr f ((a :: rest).drop cluster_max_size) with
        | ok pr =>
          obtain ⟨details, calls⟩ := pr
          simp only [batchesLoop, List.mem_cons]
          constructor
          · rintro ⟨e, he⟩
            exact absurd he (by simp)
          · rintro ⟨b, hbm | hbm, hbe⟩
            · exact absurd (hbm ▸ hbe) hb
            · have := (ih _ hlen).mpr ⟨b, hbm, hbe⟩
              obtain ⟨e, he⟩ := this
              rw [he] at hrec
              exact Except.noConfusion hrec
        | error e =>
          simp only [batchesLoop, List.mem_cons]
          constructor
          · intro _
            have := (ih _ hlen).mp ⟨e, hrec⟩
            obtain ⟨b, hbm, hbe⟩ := this
            exact ⟨b, Or.inr hbm, hbe⟩
          · intro _
            exact ⟨e, rfl⟩

/-- When the loop fails, the error carries the whole remaining identifier
list: a nonempty suffix of the input whose first at-most-50 identifiers are
the failing batch. -/
theorem describeLoop_error_payload (descr : List String → List ClusterRecord) :
    ∀ (fuel : Nat) (arns : List String), arns.length ≤ fuel →
    ∀ e, describeLoop descr fuel arns = Except.error e →
      ∃ rem, e = PyError.describeError rem ∧ rem ≠ [] ∧ rem <:+ arns ∧
        descr (rem.take cluster_max_size) = [] ∧
        rem.take cluster_max_size ∈ batchesLoop fuel arns := by
  intro fuel
  induction fuel with
  | zero =>
    intro arns h1 e he
    have harns : arns = [] := List.length_eq_zero.mp (Nat.le_zero.mp h1)
    subst harns
    exact Except.noConfusion he
  | succ f ih =>
    intro arns h1 e he
    cases arns with
    | nil => exact Except.noConfusion he
    | cons a rest =>
      have hlen : ((a :: rest).drop cluster_max_size).length ≤ f := by
        rw [List.length_drop]
        simp only [List.length_cons] at h1
        simp only [List.length_cons, cluster_max_size]
        omega
      rw [describeLoop_cons] at he
      by_cases hb : descr ((a :: rest).take cluster_max_size) = []
      · rw [if_neg (by simp [hb])] at he
        refine ⟨a :: rest, ?_, by simp, List.suffix_refl _, hb, by simp [batchesLoop]⟩
        exact (Except.error.injEq _ _ ▸ he.symm) ▸ rfl
      · have hpos : (descr ((a :: rest).take cluster_max_size)).length > 0 :=
          List.length_pos.mpr hb
        rw [if_pos hpos] at he
        cases hrec : describeLoop descr f ((a :: rest).drop cluster_max_size) with
        | ok pr =>
          obtain ⟨details, calls⟩ := pr
          rw [hrec] at he
          exact absurd he (by simp)
        | error e2 =>
          rw [hrec] at he
          have he2 : e2 = e := by
            simpa using he
          subst he2
          obtain ⟨rem, hrem, hne, hsuf, hfail, hmem⟩ := ih _ hlen _ hrec
          refine ⟨rem, hrem, hne, ?_, hfail, ?_⟩
          · exact hsuf.trans (List.drop_suffix _ _)
          · simp only [batchesLoop, List.mem_cons]
            exact Or.inr hmem

/-! Mode-by-mode reductions of the per-record filter test. -/

theorem keep_cluster_substring (filter_param filter_value : String)
    (cluster : ClusterRecord) :
    keep_cluster filter_param filter_value "substring" cluster =
      pyIn filter_value (getField cluster filter_param) := rfl

theorem keep_cluster_exact (filter_param filter_value : String)
    (cluster : ClusterRecord) :
    keep_cluster filter_param filter_value "exact" cluster =
      decide (getField cluster filter_param = filter_value) := rfl

theorem keep_cluster_regex (filter_param filter_value : String)
    (cluster : ClusterRecord) :
    keep_cluster filter_param filter_value "regex" cluster =
      re_match filter_value (getField cluster filter_param) := rfl

theorem keep_cluster_other (filter_param filter_value filter_mode : String)
    (cluster : ClusterRecord) (h1 : filter_mode ≠ "substring")
    (h2 : filter_mode ≠ "exact") (h3 : filter_mode ≠ "regex") :
    keep_cluster filter_param filter_value filter_mode cluster = false := by
  simp [keep_cluster, h1, h2, h3]

/-! The claim theorems. -/

/-- C1 (code bug): on a provider whose first listing response carries a
continuation token, `list_clusters` raises `AttributeError` — the loop body
calls `self.ecs_list_clusters()`, an attribute the class does not define, and
the continuation token is never forwarded — instead of returning the
concatenation of the two pages as the claim states. -/
theorem list_clusters_token_never_forwarded :
    list_clusters twoPageProvider =
      Except.error (PyError.attributeError "ecs_list_clusters") ∧
    list_clusters twoPageProvider ≠ Except.ok ["c1", "c2"] := by
  have h0 : list_clusters twoPageProvider =
      Except.error (PyError.attributeError "ecs_list_clusters") := rfl
  refine ⟨h0, ?_⟩
  rw [h0]
  exact fun h => Except.noConfusion h

/-- C2: `describe_clusters` partitions its input into consecutive batches of
at most `cluster_max_size = 50` identifiers, issues exactly one describe
call per batch (the call log equals the batch list), and returns the
responses concatenated in input order, provided no batch's response is
empty (an empty response raises instead; see the error claims). -/
theorem describe_clusters_batches (descr : List String → List ClusterRecord)
    (cluster_arns : List String)
    (h : ∀ b ∈ batchesOf cluster_arns, descr b ≠ []) :
    describe_clusters descr cluster_arns =
      Except.ok (((batchesOf cluster_arns).map descr).flatten,
        batchesOf cluster_arns) ∧
    (batchesOf cluster_arns).flatten = cluster_arns ∧
    ∀ b ∈ batchesOf cluster_arns, b.length ≤ cluster_max_size ∧ b ≠ [] :=
  ⟨describeLoop_ok descr cluster_arns.length cluster_arns (Nat.le_refl _) h,
   batchesLoop_flatten cluster_arns.length cluster_arns (Nat.le_refl _),
   fun b hb => batchesLoop_mem cluster_arns.length cluster_arns b hb⟩

/-- Witness for C2 at 120 distinct identifiers and a provider returning one
record per identifier: 3 batches of sizes 50, 50 and 20, and 120 records in
the original order. -/
theorem describe_clusters_batches_witness :
    (∀ b ∈ batchesOf arns120, descrPerArn b ≠ []) ∧
    (describe_clusters descrPerArn arns120 =
        Except.ok (((batchesOf arns120).map descrPerArn).flatten,
          batchesOf arns120) ∧
      (batchesOf arns120).flatten = arns120 ∧
      ∀ b ∈ batchesOf arns120, b.length ≤ cluster_max_size ∧ b ≠ []) ∧
    (batchesOf arns120).map List.length = [50, 50, 20] ∧
    ((batchesOf arns120).map descrPerArn).flatten = arns120.map mkRecord ∧
    arns120.length = 120 :=
  ⟨by decide, describe_clusters_batches descrPerArn arns120 (by decide),
   by decide, rfl, rfl⟩

/-- C3: in regex mode the filter keeps exactly the records some prefix of
whose field value matches the parsed pattern — prefix-anchored, not
full-match — and on names prod-a, prod-b, stage-a with pattern prod-.* it
keeps exactly the first two. -/
theorem filter_clusters_regex_prefix (clusters : List ClusterRecord)
    (filter_param filter_value : String) :
    filter_clusters clusters filter_param filter_value "regex" =
      clusters.filter (fun c => re_match filter_value (getField c filter_param)) ∧
    (∀ c : ClusterRecord,
      c ∈ filter_clusters clusters filter_param filter_value "regex" ↔
        c ∈ clusters ∧ ∃ p, p <+: (getField c filter_param).toList ∧
          RMatches (parseRegex filter_value) p) ∧
    filter_clusters sampleClusters "clusterName" "prod-.*" "regex" =
      [recProdA, recProdB] := by
  refine ⟨rfl, ?_, by decide⟩
  intro c
  unfold filter_clusters
  rw [List.mem_filter, keep_cluster_regex, re_match_iff]

/-- C4: in substring mode the filter keeps exactly the records whose field
value contains the pattern as a substring, in exact mode exactly those whose
field value equals the pattern; both outputs are subsequences of the input
(order preserved), and the spec's concrete examples hold. -/
theorem filter_clusters_substring_exact (clusters : List ClusterRecord)
    (filter_param filter_value : String) :
    (∀ c : ClusterRecord,
      c ∈ filter_clusters clusters filter_param filter_value "substring" ↔
        c ∈ clusters ∧ filter_value.toList <:+: (getField c filter_param).toList) ∧
    (∀ c : ClusterRecord,
      c ∈ filter_clusters clusters filter_param filter_value "exact" ↔
        c ∈ clusters ∧ getField c filter_param = filter_value) ∧
    (filter_clusters clusters filter_param filter_value "substring").Sublist clusters ∧
    (filter_clusters clusters filter_param filter_value "exact").Sublist clusters ∧
    filter_clusters sampleClusters "clusterName" "prod" "substring" =
      [recProdA, recProdB] ∧
    filter_clusters sampleClusters "clusterName" "prod-a" "exact" = [recProdA] := by
  refine ⟨?_, ?_, List.filter_sublist clusters, List.filter_sublist clusters,
    by decide, by decide⟩
  · intro c
    unfold filter_clusters
    rw [List.mem_filter, keep_cluster_substring]
    unfold pyIn
    rw [decide_eq_true_eq]
  · intro c
    unfold filter_clusters
    rw [List.mem_filter, keep_cluster_exact, decide_eq_true_eq]

/-- C5 (amended): `describe_clusters` fails exactly when some batch's
response has zero records, and the raised error carries the whole remaining
identifier list — a nonempty suffix of the input whose first at-most-50
identifiers are the failing batch; it equals the requested batch only when
at most 50 identifiers remain. -/
theorem describe_clusters_error_characterisation
    (descr : List String → List ClusterRecord) (cluster_arns : List String) :
    ((∃ e, describe_clusters descr cluster_arns = Except.error e) ↔
      ∃ b ∈ batchesOf cluster_arns, descr b = []) ∧
    ∀ e, describe_clusters descr cluster_arns = Except.error e →
      ∃ rem, e = PyError.describeError rem ∧ rem ≠ [] ∧ rem <:+ cluster_arns ∧
        descr (rem.take cluster_max_size) = [] ∧
        rem.take cluster_max_size ∈ batchesOf cluster_arns :=
  ⟨describeLoop_error_iff descr cluster_arns.length cluster_arns (Nat.le_refl _),
   fun e he =>
    describeLoop_error_payload descr cluster_arns.length cluster_arns
      (Nat.le_refl _) e he⟩

/-- Witness for the amended C5 at 51 identifiers and a provider returning
zero records. -/
theorem describe_clusters_error_characterisation_witness :
    (∃ b ∈ batchesOf arns51, descrNone b = []) ∧
    ∃ rem, PyError.describeError arns51 = PyError.describeError rem ∧
      rem ≠ [] ∧ rem <:+ arns51 ∧ descrNone (rem.take cluster_max_size) = [] ∧
      rem.take cluster_max_size ∈ batchesOf arns51 :=
  ⟨((describe_clusters_error_characterisation descrNone arns51).1).mp
      ⟨PyError.describeError arns51, rfl⟩,
   (describe_clusters_error_characterisation descrNone arns51).2
      (PyError.describeError arns51) rfl⟩

/-- Counterexample to C5 as stated: with 51 identifiers and a provider
returning zero records, the error carries all 51 identifiers, not the
50-element requested batch, so the message does not identify the requested
batch. -/
theorem describe_error_payload_counterexample :
    describe_clusters descrNone arns51 =
      Except.error (PyError.describeError arns51) ∧
    (batchesOf arns51).head? = some (arns51.take cluster_max_size) ∧
    arns51 ≠ arns51.take cluster_max_size ∧
    arns51.length = 51 ∧ (arns51.take cluster_max_size).length = 50 :=
  ⟨rfl, rfl, by decide, rfl, rfl⟩

/-- C6: on the empty identifier list `describe_clusters` returns the empty
record list with an empty call log (zero batches) and does not fail. -/
theorem describe_clusters_empty (descr : List String → List ClusterRecord) :
    describe_clusters descr [] = Except.ok ([], []) ∧ batchesOf [] = [] :=
  ⟨rfl, rfl⟩

/-- C7: with a match mode other than substring, exact or regex every record
falls through the branch chain without being appended, so the result is
empty (and the embedding is total: nothing is raised). -/
theorem filter_clusters_unknown_mode (clusters : List ClusterRecord)
    (filter_param filter_value filter_mode : String)
    (h1 : filter_mode ≠ "substring") (h2 : filter_mode ≠ "exact")
    (h3 : filter_mode ≠ "regex") :
    filter_clusters clusters filter_param filter_value filter_mode = [] := by
  have hk : keep_cluster filter_param filter_value filter_mode = fun _ => false :=
    funext fun c => keep_cluster_other filter_param filter_value filter_mode c h1 h2 h3
  unfold filter_clusters
  rw [hk]
  exact List.filter_false clusters

/-- Witness for C7 at the mode `refex` (the typo appearing in the module's
own documentation choices). -/
theorem filter_clusters_unknown_mode_witness :
    ("refex" ≠ "substring" ∧ "refex" ≠ "exact" ∧ "refex" ≠ "regex") ∧
    filter_clusters sampleClusters "clusterName" "prod" "refex" = [] :=
  ⟨⟨by decide, by decide, by decide⟩,
   filter_clusters_unknown_mode sampleClusters "clusterName" "prod" "refex"
     (by decide) (by decide) (by decide)⟩

/-- C8: for every criterion the filter's output is a subsequence of its
input; in particular every returned record occurs in the input — filtering
never fabricates records. -/
theorem filter_clusters_sublist (clusters : List ClusterRecord)
    (filter_param filter_value filter_mode : String) :
    (filter_clusters clusters filter_param filter_value filter_mode).Sublist
      clusters ∧
    ∀ c ∈ filter_clusters clusters filter_param filter_value filter_mode,
      c ∈ clusters :=
  ⟨List.filter_sublist clusters, fun _ hc => (List.mem_filter.mp hc).1⟩

/-- C9: with the module defaults — empty `name`, `substring` mode — the
filter keeps every record, since the empty string is a substring of every
field value. -/
theorem filter_clusters_default_identity (clusters : List ClusterRecord)
    (filter_param : String) :
    filter_clusters clusters filter_param default_name default_search_mode =
      clusters := by
  unfold filter_clusters
  apply List.filter_eq_self.mpr
  intro c hc
  have hk : keep_cluster filter_param default_name default_search_mode c =
      pyIn default_name (getField c filter_param) := rfl
  rw [hk]
  unfold pyIn
  rw [decide_eq_true_eq]
  have hn : default_name.toList = [] := rfl
  rw [hn]
  exact List.nil_infix

/-- C10: filtering is idempotent — applying the same criterion to the
filter's own output returns it unchanged. -/
theorem filter_clusters_idempotent (clusters : List ClusterRecord)
    (filter_param filter_value filter_mode : String) :
    filter_clusters
        (filter_clusters clusters filter_param filter_value filter_mode)
        filter_param filter_value filter_mode =
      filter_clusters clusters filter_param filter_value filter_mode := by
  unfold filter_clusters
  exact List.filter_eq_self.mpr fun c hc => (List.mem_filter.mp hc).2

end EcsClusterFacts
